import Mathlib

/- Verification of the FileMan file-access layer (src/sgp/FileMan.cc):
   path utilities, the case-insensitive resolver, the layered open
   algorithm, the unified file handle operations and the directory
   lifecycle operations, modelled over explicit filesystem environments.
   Paths are lists of characters (C strings without the terminating NUL);
   the POSIX / CASE_SENSITIVE_FS build is modelled. -/

set_option maxHeartbeats 1000000

/-- A path, i.e. a C string viewed as a list of characters. -/
abbrev FPath := List Char

/-- PATH_SEPARATOR on the POSIX build. -/
def PATH_SEPARATOR : Char := '/'

/-- Directory entry type as reported by readdir: DT_REG, DT_DIR, or any
other d_type value (which never matches the DT_REG/DT_DIR mask). -/
inductive DType
  | reg
  | dir
  | other
  deriving DecidableEq

/-- One readdir directory entry: a name and an OS-reported type. -/
structure DirEnt where
  d_name : FPath
  d_type : DType
  deriving DecidableEq

/-- The platform capabilities FileMan.cc calls into.
`openFile` models a successful open(2)+fdopen of the given path (the
returned Nat stands for the usable descriptor); `readDir` models
opendir/readdir, returning the entries in the native enumeration order
and none when the directory cannot be opened for listing; `dataDir`
is FileMan::getDataDirPath(); `hasLibFile` models OpenFileFromLibrary
succeeding for the given name. -/
structure FsEnv where
  openFile : FPath → Option Nat
  readDir : FPath → Option (List DirEnt)
  dataDir : FPath
  hasLibFile : FPath → Bool

/-- Split a path at the first PATH_SEPARATOR, mirroring
strstr(name, "/"): the part before the first separator and the part
after it, or none when the name has no separator. -/
def splitFirstSep : FPath → Option (FPath × FPath)
  | [] => none
  | c :: rest =>
    if c = PATH_SEPARATOR then some ([], rest)
    else (splitFirstSep rest).map (fun p => (c :: p.1, p.2))

/-- FileMan::joinPaths(first, second, outputBuf, outputBufSize): copy
first, append a separator unless first already ends in one, then append
second unconditionally (buffer truncation is not modelled; the C code
reads first[strlen(first)-1], so an empty first is modelled as not
ending in a separator). -/
def joinPathsBuf (first second : FPath) : FPath :=
  if first.getLast? ≠ some PATH_SEPARATOR then first ++ PATH_SEPARATOR :: second
  else first ++ second

/-- strcasecmp(a, b) == 0: byte-wise ASCII case-insensitive equality. -/
def strcaseEq (a b : FPath) : Bool :=
  a.map Char.toLower == b.map Char.toLower

/-- The per-entry test of findObjectCaseInsensitive's scan loop:
(entry->d_type & objectTypes) && !strcasecmp(name, entry->d_name),
where objectTypes = (lookForFiles ? DT_REG : 0) | (lookForSubdirs ? DT_DIR : 0). -/
def entryMatches (name : FPath) (lookForFiles lookForSubdirs : Bool) (e : DirEnt) : Bool :=
  (match e.d_type with
   | DType.reg => lookForFiles
   | DType.dir => lookForSubdirs
   | DType.other => false) && strcaseEq name e.d_name

/-- The readdir loop of findObjectCaseInsensitive: every entry is
examined; each matching entry overwrites the result buffer. -/
def scanDirLoop (name : FPath) (lookForFiles lookForSubdirs : Bool)
    (entries : List DirEnt) : Option FPath :=
  entries.foldl
    (fun res e => if entryMatches name lookForFiles lookForSubdirs e then some e.d_name else res)
    none

/-- The no-separator branch of findObjectCaseInsensitive: opendir the
directory (failure leaves the result at "not found") and run the scan loop. -/
def opendirScan (env : FsEnv) (directory name : FPath)
    (lookForFiles lookForSubdirs : Bool) : Option FPath :=
  match env.readDir directory with
  | some entries => scanDirLoop name lookForFiles lookForSubdirs entries
  | none => none

/-- Fueled body of findObjectCaseInsensitive.  The fuel only bounds the
recursion depth; `findObjectCaseInsensitive` instantiates it with more
fuel than the recursion (which descends along strictly shorter path
fragments) can consume, and `findFuel_congr` below shows the result is
then independent of the fuel. -/
def findFuel : Nat → FsEnv → FPath → FPath → Bool → Bool → Option FPath
  | 0, _, _, _, _, _ => none
  | fuel + 1, env, directory, name, lookForFiles, lookForSubdirs =>
    match splitFirstSep name with
    | some (hd, tl) =>
      if hd ≠ [] ∧ tl ≠ [] then
        -- the name contains a directory part: find its actual name first
        match findFuel fuel env directory hd false true with
        | some actualSubdirName =>
          match findFuel fuel env (joinPathsBuf directory actualSubdirName) tl
              lookForFiles lookForSubdirs with
          | some pathInSubdir => some (joinPathsBuf actualSubdirName pathInSubdir)
          | none => none
        | none => none
      else opendirScan env directory name lookForFiles lookForSubdirs
    | none => opendirScan env directory name lookForFiles lookForSubdirs

/-- findObjectCaseInsensitive(directory, name, lookForFiles,
lookForSubdirs): resolve `name` against the on-disk casing under
`directory`, returning the actual name when found. -/
def findObjectCaseInsensitive (env : FsEnv) (directory name : FPath)
    (lookForFiles lookForSubdirs : Bool) : Option FPath :=
  findFuel (name.length + 1) env directory name lookForFiles lookForSubdirs

/-- FileMan::joinPaths(const std::string&, const char*): append second
to first, inserting a separator when first is empty or does not end in
one and second does not begin with one (an empty second reads the
terminating NUL, which differs from the separator, so a separator is
appended in that case). -/
def FileMan.joinPaths (first second : FPath) : FPath :=
  let withSep :=
    if first.length = 0 ∨ first.getLast? ≠ some PATH_SEPARATOR then
      if second.head? ≠ some PATH_SEPARATOR then first ++ [PATH_SEPARATOR] else first
    else first
  withSep ++ second

/-- Does a path contain two adjacent separators? -/
def hasDoubledSep : FPath → Bool
  | c1 :: c2 :: rest =>
    (c1 = PATH_SEPARATOR && c2 = PATH_SEPARATOR) || hasDoubledSep (c2 :: rest)
  | _ => false

/-- The error taxonomy surfaced by the layer (each runtime_error /
logic_error throw site mapped to the spec's names). -/
inductive SGPError
  | notFound
  | readFailure
  | writeFailure
  | logicError
  | deleteFailure
  deriving DecidableEq

/-- The tagged union SGPFile at open time: flags SGPFILE_REAL with a
FILE* (realFile) or flags SGPFILE_NONE with a LibraryFile (libFile of
the entry name it was opened from). -/
inductive SGPFile
  | realFile (fd : Nat)
  | libFile (name : FPath)
  deriving DecidableEq

/-- getSGPFileFromFD: a failed descriptor (fd < 0, modelled as none)
raises the single "Opening file failed" error, mapped to NotFound;
otherwise the handle is tagged SGPFILE_REAL. -/
def getSGPFileFromFD (d : Option Nat) : Except SGPError SGPFile :=
  match d with
  | none => Except.error SGPError.notFound
  | some fd => Except.ok (SGPFile.realFile fd)

/-- OpenFileInDataDirFD: snprintf(path, "%s/%s", dataDir, filename) and
open it; on failure, on a case-sensitive filesystem, retry once with the
name found by findObjectCaseInsensitive(dataDir, filename, true, false). -/
def OpenFileInDataDirFD (env : FsEnv) (filename : FPath) : Option Nat :=
  match env.openFile (env.dataDir ++ PATH_SEPARATOR :: filename) with
  | some d => some d
  | none =>
    match findObjectCaseInsensitive env env.dataDir filename true false with
    | some newFileName => env.openFile (env.dataDir ++ PATH_SEPARATOR :: newFileName)
    | none => none

/-- FileMan::openForReadingSmart(filename, useSmartLookup): open the
literal filename; if that fails and the smart lookup is enabled, try the
data directory (with the case-insensitive retry), then the libraries;
any descriptor obtained is wrapped by getSGPFileFromFD. -/
def FileMan.openForReadingSmart (env : FsEnv) (filename : FPath)
    (useSmartLookup : Bool) : Except SGPError SGPFile :=
  match env.openFile filename, useSmartLookup with
  | none, true =>
    match OpenFileInDataDirFD env filename with
    | some d => getSGPFileFromFD (some d)
    | none =>
      if env.hasLibFile filename then Except.ok (SGPFile.libFile filename)
      else getSGPFileFromFD none
  | d, _ => getSGPFileFromFD d

/-- The layered open algorithm as worded by the spec: try the literal
filename, then join(dataDir, filename), then (on a case-sensitive
filesystem) the open retried with the name found by the case-insensitive
resolver, then the archive; the handle is tagged RealFile for the first
three sources and ArchiveEntry for the archive; with the smart lookup
disabled only the literal path is tried; otherwise the single NotFound
error is reported. -/
def openForReadingSmartSpec (env : FsEnv) (filename : FPath)
    (useSmartLookup : Bool) : Except SGPError SGPFile :=
  match env.openFile filename with
  | some fd => Except.ok (SGPFile.realFile fd)
  | none =>
    if useSmartLookup then
      match env.openFile (FileMan.joinPaths env.dataDir filename) with
      | some fd => Except.ok (SGPFile.realFile fd)
      | none =>
        match findObjectCaseInsensitive env env.dataDir filename true false with
        | some resolved =>
          match env.openFile (FileMan.joinPaths env.dataDir resolved) with
          | some fd => Except.ok (SGPFile.realFile fd)
          | none =>
            if env.hasLibFile filename then Except.ok (SGPFile.libFile filename)
            else Except.error SGPError.notFound
        | none =>
          if env.hasLibFile filename then Except.ok (SGPFile.libFile filename)
          else Except.error SGPError.notFound
    else Except.error SGPError.notFound

/-- The state behind an open SGPFILE_REAL handle: the byte content of
the underlying file, the stream position, and whether the stream is in
a state where fwrite fails (reporting a short write). -/
structure RealFileSt where
  content : List Nat
  pos : Nat
  writeErr : Bool
  deriving DecidableEq

/-- The state behind an open archive entry (LibraryFile): the entry's
bytes and the cursor position inside the entry. -/
structure LibraryFile where
  content : List Nat
  pos : Nat
  deriving DecidableEq

/-- An open unified handle together with the state of its backing store,
for the read/write contracts. -/
inductive HWFile
  | real (st : RealFileSt)
  | lib (st : LibraryFile)
  deriving DecidableEq

/-- fread(pDest, size, 1, file): the read is performed as a single item
of the given size.  Per the C standard a zero size reads zero items; a
full item is read exactly when size bytes remain from the position;
otherwise the incomplete item leaves the count at zero. -/
def fread1 (st : RealFileSt) (size : Nat) : Nat × RealFileSt :=
  if size = 0 then (0, st)
  else if st.pos + size ≤ st.content.length then
    (1, { st with pos := st.pos + size })
  else (0, { st with pos := st.content.length })

/-- Modelled from the spec: LoadDataFromLibrary lives in
LibraryDataBase.cc, which is not part of this source; per the spec the
archive collaborator performs a bounded read that succeeds exactly when
byteCount bytes can be supplied from the entry cursor, advancing it. -/
def LoadDataFromLibrary (st : LibraryFile) (n : Nat) :
    Option (LibraryFile × List Nat) :=
  if st.pos + n ≤ st.content.length then
    some ({ st with pos := st.pos + n }, (st.content.drop st.pos).take n)
  else none

/-- FileRead(f, pDest, uiBytesToRead): a RealFile does a one-item fread
of uiBytesToRead bytes, an archive entry delegates to
LoadDataFromLibrary; a false result raises "Reading from file failed"
(ReadFailure).  The returned list is the data placed in pDest. -/
def FileRead (f : HWFile) (n : Nat) : Except SGPError (HWFile × List Nat) :=
  match f with
  | HWFile.real st =>
    let r := fread1 st n
    if r.1 = 1 then Except.ok (HWFile.real r.2, (st.content.drop st.pos).take n)
    else Except.error SGPError.readFailure
  | HWFile.lib st =>
    match LoadDataFromLibrary st n with
    | some (st2, data) => Except.ok (HWFile.lib st2, data)
    | none => Except.error SGPError.readFailure

/-- Overwrite `data.length` bytes of `content` starting at `pos`. -/
def writeAt (content : List Nat) (pos : Nat) (data : List Nat) : List Nat :=
  content.take pos ++ data ++ content.drop (pos + data.length)

/-- fwrite(pDest, size, 1, file): zero size writes zero items; a stream
in the failing state short-writes (zero items); otherwise the single
item is written at the position. -/
def fwrite1 (st : RealFileSt) (data : List Nat) : Nat × RealFileSt :=
  if data.length = 0 then (0, st)
  else if st.writeErr then (0, st)
  else (1, { st with
              content := writeAt st.content st.pos data,
              pos := st.pos + data.length })

/-- FileWrite(f, pDest, uiBytesToWrite): writing to a handle that is not
SGPFILE_REAL raises logic_error ("Tried to write to library file");
otherwise fwrite of one item of uiBytesToWrite bytes, raising "Writing
to file failed" (WriteFailure) unless exactly one item was written. -/
def FileWrite (f : HWFile) (data : List Nat) : Except SGPError HWFile :=
  match f with
  | HWFile.lib _ => Except.error SGPError.logicError
  | HWFile.real st =>
    let r := fwrite1 st data
    if r.1 = 1 then Except.ok (HWFile.real r.2)
    else Except.error SGPError.writeFailure

/-- A filesystem object: a regular file or a directory. -/
inductive FSObj
  | file
  | dir
  deriving DecidableEq

/-- A filesystem for the directory lifecycle operations: the existing
objects (full path and kind, in enumeration order) and, per path,
whether unlink fails on it for a reason other than absence or being a
directory (permissions and the like). -/
structure FS where
  objs : List (FPath × FSObj)
  unlinkErr : FPath → Bool

/-- Look an object up by path (first entry with that path). -/
def lookupObjs : List (FPath × FSObj) → FPath → Option FSObj
  | [], _ => none
  | e :: rest, p => if e.1 = p then some e.2 else lookupObjs rest p

/-- Remove every object with the given path. -/
def removeObjs : List (FPath × FSObj) → FPath → List (FPath × FSObj)
  | [], _ => []
  | e :: rest, p => if e.1 = p then removeObjs rest p else e :: removeObjs rest p

/-- FS.lookup: what stat/unlink sees at a path. -/
def FS.lookup (fs : FS) (p : FPath) : Option FSObj :=
  lookupObjs fs.objs p

/-- FS.removePath: the filesystem after a successful unlink. -/
def FS.removePath (fs : FS) (p : FPath) : FS :=
  { fs with objs := removeObjs fs.objs p }

/-- Outcome of unlink(2). -/
inductive UnlinkRes
  | ok
  | enoent
  | fail
  deriving DecidableEq

/-- unlink(path): removes a regular file; ENOENT when nothing is there;
fails on a directory (EISDIR/EPERM) or when the path's unlinkErr is set. -/
def unlinkFS (fs : FS) (p : FPath) : UnlinkRes × FS :=
  match fs.lookup p with
  | some FSObj.file =>
    if fs.unlinkErr p then (UnlinkRes.fail, fs) else (UnlinkRes.ok, fs.removePath p)
  | some FSObj.dir => (UnlinkRes.fail, fs)
  | none => (UnlinkRes.enoent, fs)

/-- FileDelete(path), POSIX branch: unlink; success and ENOENT both
return silently; any other failure raises "Deleting file failed"
(DeleteFailure). -/
def FileDelete (fs : FS) (p : FPath) : Except SGPError FS :=
  match unlinkFS fs p with
  | (UnlinkRes.ok, fs2) => Except.ok fs2
  | (UnlinkRes.enoent, fs2) => Except.ok fs2
  | (UnlinkRes.fail, _) => Except.error SGPError.deleteFailure

/-- FileGetAttributes(path), POSIX branch, restricted to the directory
flag the erase loop consults: none models FILE_ATTR_ERROR (stat failed),
some b models a successful query with b the FILE_ATTR_DIRECTORY bit. -/
def FileGetAttributes (fs : FS) (p : FPath) : Option Bool :=
  (fs.lookup p).map (fun o => decide (o = FSObj.dir))

/-- Strip a leading fragment from a path, character by character. -/
def stripPrefixPath : FPath → FPath → Option FPath
  | [], p => some p
  | _ :: _, [] => none
  | a :: as, c :: cs => if a = c then stripPrefixPath as cs else none

/-- Does a path match the glob pattern path ++ "/*"?  If so return the
basename: the path extends `path` with a separator and one further
non-empty component without separators, and "*" does not match a
leading dot. -/
def globBase (path p : FPath) : Option FPath :=
  match stripPrefixPath path p with
  | some (c :: b) =>
    if c = PATH_SEPARATOR ∧ b ≠ [] ∧ PATH_SEPARATOR ∉ b ∧ b.head? ≠ some '.' then some b
    else none
  | _ => none

/-- SGP::FindFiles(path ++ "/*") with Next(): the basenames of the
direct children matched by the pattern, in enumeration order (the glob
is run eagerly before any deletion). -/
def globChildren (fs : FS) (path : FPath) : List FPath :=
  fs.objs.filterMap (fun e => globBase path e.1)

/-- The deletion loop of EraseDirectory: for each found basename build
path ++ "/" ++ basename, FileDelete it; when that fails, re-check the
attributes and silently skip directories, re-raising anything else. -/
def eraseDirLoop (path : FPath) (fs : FS) : List FPath → Except SGPError FS
  | [] => Except.ok fs
  | b :: rest =>
    match FileDelete fs (path ++ PATH_SEPARATOR :: b) with
    | Except.ok fs2 => eraseDirLoop path fs2 rest
    | Except.error e =>
      match FileGetAttributes fs (path ++ PATH_SEPARATOR :: b) with
      | some isDir => if isDir then eraseDirLoop path fs rest else Except.error e
      | none => Except.error e

/-- EraseDirectory(path): glob path ++ "/*" and run the deletion loop. -/
def EraseDirectory (fs : FS) (path : FPath) : Except SGPError FS :=
  eraseDirLoop path fs (globChildren fs path)

/- Concrete fixtures used by the witnesses. -/

/-- A filesystem with the single literal file "f" (descriptor 3). -/
def envLit : FsEnv :=
  ⟨fun p => if p = ['f'] then some 3 else none, fun _ => some [], ['d'], fun _ => false⟩

/-- A filesystem with nothing in it. -/
def envNone : FsEnv :=
  ⟨fun _ => none, fun _ => none, ['d'], fun _ => false⟩

/-- A data directory "d" holding two regular files whose names differ
only in case. -/
def envTwo : FsEnv :=
  ⟨fun _ => none,
   fun p => if p = ['d'] then some [⟨['A'], DType.reg⟩, ⟨['a'], DType.reg⟩] else none,
   ['d'], fun _ => false⟩

/-- A root "r" holding subdirectory "d", which holds the file "F". -/
def envSub : FsEnv :=
  ⟨fun _ => none,
   fun p =>
     if p = ['r'] then some [⟨['d'], DType.dir⟩]
     else if p = ['r', '/', 'd'] then some [⟨['F'], DType.reg⟩]
     else none,
   ['r'], fun _ => false⟩

/-- An open archive entry. -/
def libFix : LibraryFile := ⟨[1, 2, 3], 0⟩

/-- An open real file whose stream is in the failing-write state. -/
def stFix : RealFileSt := ⟨[1, 2, 3], 0, true⟩

/-- A directory "d" with files "d/a" and "d/b", subdirectory "d/s" and
a file "d/s/x" inside it. -/
def fsFix : FS :=
  ⟨[(['d'], FSObj.dir),
    (['d', '/', 'a'], FSObj.file),
    (['d', '/', 'b'], FSObj.file),
    (['d', '/', 's'], FSObj.dir),
    (['d', '/', 's', '/', 'x'], FSObj.file)],
   fun _ => false⟩

/- Theorems. -/

/-- C3 counterexample: the string overload at a = "a/", b = "/b" keeps
both the trailing and the leading separator, producing "a//b"; the
buffer overload at a = "a", b = "/b" inserts a separator without
inspecting b, also producing "a//b". -/
theorem joinPaths_doubled_separator_cex :
    (FileMan.joinPaths ['a', PATH_SEPARATOR] [PATH_SEPARATOR, 'b']
        = ['a', PATH_SEPARATOR, PATH_SEPARATOR, 'b']
      ∧ hasDoubledSep (FileMan.joinPaths ['a', PATH_SEPARATOR] [PATH_SEPARATOR, 'b']) = true)
    ∧ (joinPathsBuf ['a'] [PATH_SEPARATOR, 'b']
        = ['a', PATH_SEPARATOR, PATH_SEPARATOR, 'b']
      ∧ hasDoubledSep (joinPathsBuf ['a'] [PATH_SEPARATOR, 'b']) = true) :=
  ⟨⟨rfl, rfl⟩, ⟨rfl, rfl⟩⟩

/-- C3 (amended): neither overload ever omits a separator between a and
b.  The string overload inserts one exactly when a does not end in a
separator and b does not begin with one, so exactly one separator
stands between them except when a ends in a separator and b begins
with one, where the doubled separator is kept.  The buffer overload
inserts one exactly when a does not end in a separator, ignoring b
entirely, so it yields a doubled separator whenever b begins with a
separator, and exactly one separator otherwise. -/
theorem joinPaths_separator_characterization (a b : FPath) :
    (FileMan.joinPaths a b =
      if a.getLast? = some PATH_SEPARATOR ∨ b.head? = some PATH_SEPARATOR then a ++ b
      else a ++ PATH_SEPARATOR :: b)
    ∧ (joinPathsBuf a b =
      if a.getLast? = some PATH_SEPARATOR then a ++ b
      else a ++ PATH_SEPARATOR :: b) := by
  constructor
  · unfold FileMan.joinPaths
    by_cases ha : a.getLast? = some PATH_SEPARATOR
    · have hlen : a.length ≠ 0 := by
        intro h0
        rw [List.length_eq_zero] at h0
        subst h0
        simp at ha
      by_cases hb : b.head? = some PATH_SEPARATOR <;> simp [ha, hb, hlen]
    · by_cases hb : b.head? = some PATH_SEPARATOR <;> simp [ha, hb]
  · unfold joinPathsBuf
    by_cases ha : a.getLast? = some PATH_SEPARATOR <;> simp [ha]

/-- C9: joining an empty first component with a second component that
does not begin with the separator yields the separator followed by the
second component, not the second component unchanged. -/
theorem joinPaths_empty_first_component (b : FPath)
    (h : b.head? ≠ some PATH_SEPARATOR) :
    FileMan.joinPaths [] b = PATH_SEPARATOR :: b := by
  unfold FileMan.joinPaths
  simp [h]

/-- C9 witness. -/
theorem joinPaths_empty_first_component_witness :
    FileMan.joinPaths [] ['b'] = PATH_SEPARATOR :: ['b'] :=
  joinPaths_empty_first_component ['b'] (by decide)

/-- C10: a zero-byte read on a RealFile handle is performed as a single
zero-size item, which fread never reports as one successful item, so
FileRead fails with ReadFailure instead of succeeding as a no-op. -/
theorem FileRead_zero_bytes_fails (st : RealFileSt) :
    FileRead (HWFile.real st) 0 = Except.error SGPError.readFailure := by
  simp [FileRead, fread1]

/-- C6: every read either supplies exactly the requested number of bytes
or fails with ReadFailure; a short read is never returned as success. -/
theorem FileRead_all_or_nothing (f : HWFile) (n : Nat) :
    (∃ f2 data, FileRead f n = Except.ok (f2, data) ∧ data.length = n)
    ∨ FileRead f n = Except.error SGPError.readFailure := by
  cases f with
  | real st =>
    by_cases h0 : n = 0
    · subst h0
      right
      simp [FileRead, fread1]
    · by_cases hle : st.pos + n ≤ st.content.length
      · left
        refine ⟨HWFile.real { st with pos := st.pos + n },
          (st.content.drop st.pos).take n, ?_, ?_⟩
        · simp [FileRead, fread1, h0, hle]
        · simp [List.length_take, List.length_drop]
          omega
      · right
        simp [FileRead, fread1, h0, hle]
  | lib st =>
    by_cases hle : st.pos + n ≤ st.content.length
    · left
      refine ⟨HWFile.lib { st with pos := st.pos + n },
        (st.content.drop st.pos).take n, ?_, ?_⟩
      · simp [FileRead, LoadDataFromLibrary, hle]
      · simp [List.length_take, List.length_drop]
        omega
    · right
      simp [FileRead, LoadDataFromLibrary, hle]

/-- C7: writing through an archive-backed handle fails with LogicError
(the handle and archive are untouched — the error is raised before any
write); writing through a RealFile handle whose stream short-writes
(fewer than the requested bytes, here a failing stream writing none of
a non-empty buffer) fails with WriteFailure. -/
theorem FileWrite_archive_and_short_write :
    (∀ (st : LibraryFile) (data : List Nat),
      FileWrite (HWFile.lib st) data = Except.error SGPError.logicError)
    ∧ (∀ (st : RealFileSt) (data : List Nat),
        st.writeErr = true → data ≠ [] →
        FileWrite (HWFile.real st) data = Except.error SGPError.writeFailure) := by
  constructor
  · intro st data
    rfl
  · intro st data herr hne
    have hlen : data.length ≠ 0 := by
      simpa [List.length_eq_zero] using hne
    simp [FileWrite, fwrite1, hlen, herr]

/-- C7 witness. -/
theorem FileWrite_archive_and_short_write_witness :
    FileWrite (HWFile.lib libFix) [7] = Except.error SGPError.logicError
    ∧ FileWrite (HWFile.real stFix) [7] = Except.error SGPError.writeFailure :=
  ⟨FileWrite_archive_and_short_write.1 libFix [7],
   FileWrite_archive_and_short_write.2 stFix [7] rfl (by decide)⟩

/-- Inversion for splitFirstSep: a successful split reassembles the name. -/
theorem splitFirstSep_eq_some_iff_parts : ∀ (l hd tl : FPath),
    splitFirstSep l = some (hd, tl) → l = hd ++ PATH_SEPARATOR :: tl := by
  intro l
  induction l with
  | nil => intro hd tl h; simp [splitFirstSep] at h
  | cons c rest ih =>
    intro hd tl h
    by_cases hc : c = PATH_SEPARATOR
    · simp only [splitFirstSep, if_pos hc, Option.some.injEq, Prod.mk.injEq] at h
      obtain ⟨h1, h2⟩ := h
      subst h1; subst h2
      simp [hc]
    · simp only [splitFirstSep, if_neg hc] at h
      cases hs : splitFirstSep rest with
      | none => rw [hs] at h; simp at h
      | some p =>
        obtain ⟨p1, p2⟩ := p
        rw [hs] at h
        simp only [Option.map_some', Option.some.injEq, Prod.mk.injEq] at h
        obtain ⟨h1, h2⟩ := h
        subst h2
        have hrest := ih p1 p2 hs
        rw [← h1, hrest]
        simp

/-- A name without separators does not split. -/
theorem splitFirstSep_eq_none (l : FPath) (h : PATH_SEPARATOR ∉ l) :
    splitFirstSep l = none := by
  induction l with
  | nil => rfl
  | cons c rest ih =>
    have hc : c ≠ PATH_SEPARATOR := by
      intro he; exact h (he ▸ List.mem_cons_self c rest)
    have hr : PATH_SEPARATOR ∉ rest := fun hm => h (List.mem_cons_of_mem c hm)
    simp [splitFirstSep, hc, ih hr]

/-- The split of a name whose head fragment is separator-free. -/
theorem splitFirstSep_append (hd tl : FPath) (h : PATH_SEPARATOR ∉ hd) :
    splitFirstSep (hd ++ PATH_SEPARATOR :: tl) = some (hd, tl) := by
  induction hd with
  | nil => simp [splitFirstSep]
  | cons c rest ih =>
    have hc : c ≠ PATH_SEPARATOR := by
      intro he; exact h (he ▸ List.mem_cons_self c rest)
    have hr : PATH_SEPARATOR ∉ rest := fun hm => h (List.mem_cons_of_mem c hm)
    simp [splitFirstSep, hc, ih hr]

/-- One unfolding step of the fueled resolver body. -/
theorem findFuel_succ (f : Nat) (env : FsEnv) (d name : FPath) (lf ls : Bool) :
    findFuel (f + 1) env d name lf ls
      = match splitFirstSep name with
        | some (hd, tl) =>
          if hd ≠ [] ∧ tl ≠ [] then
            match findFuel f env d hd false true with
            | some actualSubdirName =>
              match findFuel f env (joinPathsBuf d actualSubdirName) tl lf ls with
              | some pathInSubdir => some (joinPathsBuf actualSubdirName pathInSubdir)
              | none => none
            | none => none
          else opendirScan env d name lf ls
        | none => opendirScan env d name lf ls := rfl

/-- Any fuel beyond the name length yields the same result: the fueled
body is the recursion itself once the fuel cannot run out. -/
theorem findFuel_congr : ∀ (f1 f2 : Nat) (env : FsEnv) (d n : FPath)
    (lf ls : Bool), n.length < f1 → n.length < f2 →
    findFuel f1 env d n lf ls = findFuel f2 env d n lf ls := by
  intro f1
  induction f1 with
  | zero => intro f2 env d n lf ls h1 _; exact absurd h1 (Nat.not_lt_zero _)
  | succ a ih =>
    intro f2 env d n lf ls h1 h2
    cases f2 with
    | zero => exact absurd h2 (Nat.not_lt_zero _)
    | succ b =>
      rw [findFuel_succ a, findFuel_succ b]
      cases hs : splitFirstSep n with
      | none => rfl
      | some p =>
        obtain ⟨hd, tl⟩ := p
        have hn := splitFirstSep_eq_some_iff_parts n hd tl hs
        have hlen : n.length = hd.length + (tl.length + 1) := by simp [hn]
        dsimp only
        by_cases hc : hd ≠ [] ∧ tl ≠ []
        · rw [if_pos hc, if_pos hc]
          rw [ih b env d hd false true (by omega) (by omega)]
          cases hr : findFuel b env d hd false true with
          | none => rfl
          | some actual =>
            dsimp only
            rw [ih b env (joinPathsBuf d actual) tl lf ls (by omega) (by omega)]
        · rw [if_neg hc, if_neg hc]

/-- Unfold findObjectCaseInsensitive through any sufficient fuel. -/
theorem findObject_eq_fuel (env : FsEnv) (d n : FPath) (lf ls : Bool)
    (f : Nat) (h : n.length < f) :
    findObjectCaseInsensitive env d n lf ls = findFuel f env d n lf ls :=
  findFuel_congr (n.length + 1) f env d n lf ls (Nat.lt_succ_self _) h

/-- On a separator-free name the resolver is exactly the directory scan. -/
theorem findObject_scan (env : FsEnv) (d n : FPath) (lf ls : Bool)
    (h : PATH_SEPARATOR ∉ n) :
    findObjectCaseInsensitive env d n lf ls = opendirScan env d n lf ls := by
  unfold findObjectCaseInsensitive
  rw [findFuel_succ, splitFirstSep_eq_none n h]

/-- The overwrite-fold of the scan loop returns the last match, i.e. the
first match of the reversed entry list. -/
theorem scanDirLoop_eq_reverse_find (name : FPath) (lf ls : Bool)
    (entries : List DirEnt) :
    scanDirLoop name lf ls entries
      = (entries.reverse.find? (entryMatches name lf ls)).map DirEnt.d_name := by
  unfold scanDirLoop
  have aux : ∀ (l : List DirEnt) (acc : Option FPath),
      l.foldl (fun res e => if entryMatches name lf ls e then some e.d_name else res) acc
        = match l.reverse.find? (entryMatches name lf ls) with
          | some e => some e.d_name
          | none => acc := by
    intro l
    induction l with
    | nil => intro acc; rfl
    | cons e rest ih =>
      intro acc
      simp only [List.foldl_cons, List.reverse_cons]
      rw [ih]
      cases hr : rest.reverse.find? (entryMatches name lf ls) with
      | some x => simp [List.find?_append, hr]
      | none =>
        by_cases hp : entryMatches name lf ls e
        · simp [List.find?_append, hr, List.find?, hp]
        · simp [List.find?_append, hr, List.find?, hp]
  rw [aux]
  cases h : entries.reverse.find? (entryMatches name lf ls) <;> simp

/-- C4: on a requestedName with no embedded separator the resolver scans
every entry of the directory in enumeration order, and among the entries
that pass the wantFiles/wantDirs type mask and compare equal
case-insensitively, the last one encountered wins (equivalently, the
first match of the reversed listing), not the first. -/
theorem findObjectCaseInsensitive_last_match_wins (env : FsEnv)
    (d name : FPath) (lf ls : Bool) (entries : List DirEnt)
    (hsep : PATH_SEPARATOR ∉ name) (hread : env.readDir d = some entries) :
    findObjectCaseInsensitive env d name lf ls
      = (entries.reverse.find? (entryMatches name lf ls)).map DirEnt.d_name := by
  rw [findObject_scan env d name lf ls hsep]
  unfold opendirScan
  rw [hread]
  exact scanDirLoop_eq_reverse_find name lf ls entries

/-- C4 witness: with entries "A" then "a", both matching "a"
case-insensitively, the later entry "a" is returned, not "A". -/
theorem findObjectCaseInsensitive_last_match_wins_witness :
    findObjectCaseInsensitive envTwo ['d'] ['a'] true false = some ['a'] := by
  have h := findObjectCaseInsensitive_last_match_wins envTwo ['d'] ['a'] true false
    [⟨['A'], DType.reg⟩, ⟨['a'], DType.reg⟩] (by decide) rfl
  rw [h]
  rfl

/-- C5: a requestedName with an embedded separator (a non-empty,
separator-free head followed by the separator and a non-empty tail) is
resolved by first resolving the head as a subdirectory only
(wantDirs true, wantFiles false) and, only on success, resolving the
tail inside the discovered subdirectory with the caller's original
flags, composing the two names; and when the starting directory cannot
be opened for listing the result is "not found", never a hard error. -/
theorem findObjectCaseInsensitive_embedded_separator (env : FsEnv)
    (d hd tl : FPath) (lf ls : Bool)
    (hsep : PATH_SEPARATOR ∉ hd) (hhd : hd ≠ []) (htl : tl ≠ []) :
    (findObjectCaseInsensitive env d (hd ++ PATH_SEPARATOR :: tl) lf ls
      = match findObjectCaseInsensitive env d hd false true with
        | some actual =>
          (findObjectCaseInsensitive env (joinPathsBuf d actual) tl lf ls).map
            (fun p => joinPathsBuf actual p)
        | none => none)
    ∧ (env.readDir d = none →
        findObjectCaseInsensitive env d (hd ++ PATH_SEPARATOR :: tl) lf ls = none) := by
  have hmain : findObjectCaseInsensitive env d (hd ++ PATH_SEPARATOR :: tl) lf ls
      = match findObjectCaseInsensitive env d hd false true with
        | some actual =>
          (findObjectCaseInsensitive env (joinPathsBuf d actual) tl lf ls).map
            (fun p => joinPathsBuf actual p)
        | none => none := by
    rw [findObject_eq_fuel env d (hd ++ PATH_SEPARATOR :: tl) lf ls
      ((hd.length + tl.length + 1) + 1) (by simp; omega)]
    rw [findFuel_succ, splitFirstSep_append hd tl hsep]
    dsimp only
    rw [if_pos (And.intro hhd htl)]
    rw [← findObject_eq_fuel env d hd false true (hd.length + tl.length + 1) (by omega)]
    cases hr : findObjectCaseInsensitive env d hd false true with
    | none => rfl
    | some actual =>
      dsimp only
      rw [← findObject_eq_fuel env (joinPathsBuf d actual) tl lf ls
        (hd.length + tl.length + 1) (by omega)]
      cases findObjectCaseInsensitive env (joinPathsBuf d actual) tl lf ls <;> rfl
  refine ⟨hmain, fun hnone => ?_⟩
  rw [hmain, findObject_scan env d hd false true hsep]
  unfold opendirScan
  rw [hnone]

/-- C5 witness: resolving "D/f" under root "r" finds subdirectory "d"
first, then file "F" inside it, composing "d/F". -/
theorem findObjectCaseInsensitive_embedded_separator_witness :
    findObjectCaseInsensitive envSub ['r'] ['D', PATH_SEPARATOR, 'f'] true false
      = some ['d', PATH_SEPARATOR, 'F'] := by
  have h := (findObjectCaseInsensitive_embedded_separator envSub ['r'] ['D'] ['f']
    true false (by decide) (by decide) (by decide)).1
  rw [show (['D', PATH_SEPARATOR, 'f'] : FPath) = ['D'] ++ PATH_SEPARATOR :: ['f'] from rfl]
  rw [h]
  rfl

/-- When the first component does not end in a separator and the second
does not begin with one, joinPaths coincides with the snprintf
"%s/%s" concatenation the open path builders use. -/
theorem joinPaths_eq_sep_append (a b : FPath)
    (ha : a.getLast? ≠ some PATH_SEPARATOR) (hb : b.head? ≠ some PATH_SEPARATOR) :
    FileMan.joinPaths a b = a ++ PATH_SEPARATOR :: b := by
  unfold FileMan.joinPaths
  simp [ha, hb]

/-- C1: openForReadingSmart tries the sources in the spec's fixed order,
stopping at the first success — the literal filename, then
join(dataDir, filename), then the case-insensitive retry, then the
archive — tagging the handle RealFile for the first three and
ArchiveEntry for the archive, and with the smart lookup disabled it
tries only the literal path.  (The data-directory paths are built with
a plain "%s/%s" format, so the spec's join(dataDir, ...) describes them
when dataDir does not end in a separator and the names do not begin
with one.) -/
theorem openForReadingSmart_layered_order (env : FsEnv) (filename : FPath)
    (useSmartLookup : Bool)
    (hdd : env.dataDir.getLast? ≠ some PATH_SEPARATOR)
    (hfn : filename.head? ≠ some PATH_SEPARATOR)
    (hres : ∀ nm, findObjectCaseInsensitive env env.dataDir filename true false = some nm →
      nm.head? ≠ some PATH_SEPARATOR) :
    FileMan.openForReadingSmart env filename useSmartLookup
      = openForReadingSmartSpec env filename useSmartLookup := by
  unfold FileMan.openForReadingSmart openForReadingSmartSpec
  cases hof : env.openFile filename with
  | some fd => cases useSmartLookup <;> rfl
  | none =>
    cases useSmartLookup with
    | false => rfl
    | true =>
      dsimp only
      unfold OpenFileInDataDirFD
      rw [joinPaths_eq_sep_append env.dataDir filename hdd hfn]
      cases hdir : env.openFile (env.dataDir ++ PATH_SEPARATOR :: filename) with
      | some d => rfl
      | none =>
        dsimp only
        cases hfind : findObjectCaseInsensitive env env.dataDir filename true false with
        | none => rfl
        | some nm =>
          dsimp only
          rw [joinPaths_eq_sep_append env.dataDir nm hdd (hres nm hfind)]
          cases env.openFile (env.dataDir ++ PATH_SEPARATOR :: nm) <;> rfl

/-- C1 witness: a file present at the literal path is opened there and
tagged RealFile by both the implementation and the spec ordering. -/
theorem openForReadingSmart_layered_order_witness :
    FileMan.openForReadingSmart envLit ['f'] true
      = openForReadingSmartSpec envLit ['f'] true
    ∧ FileMan.openForReadingSmart envLit ['f'] true = Except.ok (SGPFile.realFile 3) := by
  constructor
  · exact openForReadingSmart_layered_order envLit ['f'] true (by decide) (by decide)
      (fun nm h => by
        rw [show findObjectCaseInsensitive envLit envLit.dataDir ['f'] true false = none
          from rfl] at h
        exact absurd h (by simp))
  · rfl

/-- C2: when the filename is absent at the literal path, absent in the
data directory both directly and after case-insensitive resolution, and
absent from the libraries, openForReadingSmart with smart lookup fails
with the single NotFound error. -/
theorem openForReadingSmart_notFound (env : FsEnv) (filename : FPath)
    (h1 : env.openFile filename = none)
    (h2 : env.openFile (env.dataDir ++ PATH_SEPARATOR :: filename) = none)
    (h3 : ∀ nm, findObjectCaseInsensitive env env.dataDir filename true false = some nm →
      env.openFile (env.dataDir ++ PATH_SEPARATOR :: nm) = none)
    (h4 : env.hasLibFile filename = false) :
    FileMan.openForReadingSmart env filename true = Except.error SGPError.notFound := by
  unfold FileMan.openForReadingSmart OpenFileInDataDirFD
  rw [h1, h2]
  dsimp only
  cases hfind : findObjectCaseInsensitive env env.dataDir filename true false with
  | none => simp [h4, getSGPFileFromFD]
  | some nm =>
    dsimp only
    rw [h3 nm hfind]
    simp [h4, getSGPFileFromFD]

/-- C2 witness. -/
theorem openForReadingSmart_notFound_witness :
    FileMan.openForReadingSmart envNone ['x'] true = Except.error SGPError.notFound :=
  openForReadingSmart_notFound envNone ['x'] rfl rfl (fun _ _ => rfl) rfl

/-- A failed lookup means no entry carries the path. -/
theorem lookupObjs_eq_none (objs : List (FPath × FSObj)) (p : FPath)
    (h : lookupObjs objs p = none) : ∀ e ∈ objs, e.1 ≠ p := by
  induction objs with
  | nil => intro e he; exact absurd he (List.not_mem_nil e)
  | cons a rest ih =>
    intro e he
    by_cases ha : a.1 = p
    · simp [lookupObjs, ha] at h
    · simp only [lookupObjs, if_neg ha] at h
      cases List.mem_cons.mp he with
      | inl hea => subst hea; exact ha
      | inr her => exact ih h e her

/-- With duplicate-free keys, a successful lookup determines the kind of
every entry carrying the path. -/
theorem lookupObjs_unique (objs : List (FPath × FSObj)) (p : FPath) (o : FSObj)
    (hnd : (objs.map Prod.fst).Nodup) (h : lookupObjs objs p = some o) :
    ∀ e ∈ objs, e.1 = p → e.2 = o := by
  induction objs with
  | nil => intro e he; exact absurd he (List.not_mem_nil e)
  | cons a rest ih =>
    have hnd' : (a.1 :: rest.map Prod.fst).Nodup := by
      rw [List.map_cons] at hnd; exact hnd
    have hnd2 := List.nodup_cons.mp hnd'
    intro e he hep
    by_cases ha : a.1 = p
    · simp only [lookupObjs, if_pos ha, Option.some.injEq] at h
      cases List.mem_cons.mp he with
      | inl hea => subst hea; exact h
      | inr her =>
        exfalso
        apply hnd2.1
        rw [ha, ← hep]
        exact List.mem_map_of_mem Prod.fst her
    · simp only [lookupObjs, if_neg ha] at h
      cases List.mem_cons.mp he with
      | inl hea => subst hea; exact absurd hep ha
      | inr her => exact ih hnd2.2 h e her hep

/-- removeObjs is the filter dropping entries with the path. -/
theorem removeObjs_eq_filter (objs : List (FPath × FSObj)) (p : FPath) :
    removeObjs objs p = objs.filter (fun e => !(decide (e.1 = p))) := by
  induction objs with
  | nil => rfl
  | cons a rest ih =>
    by_cases ha : a.1 = p
    · simp [removeObjs, ha, ih]
    · simp [removeObjs, ha, ih]

/-- Removal keeps keys duplicate-free. -/
theorem nodup_keys_removeObjs (objs : List (FPath × FSObj)) (p : FPath)
    (hnd : (objs.map Prod.fst).Nodup) :
    ((removeObjs objs p).map Prod.fst).Nodup := by
  rw [removeObjs_eq_filter]
  exact List.Nodup.sublist (List.Sublist.map Prod.fst (List.filter_sublist objs)) hnd

/-- Removing one path leaves lookups of other paths unchanged. -/
theorem lookupObjs_removeObjs_ne (objs : List (FPath × FSObj)) (p q : FPath)
    (h : q ≠ p) : lookupObjs (removeObjs objs p) q = lookupObjs objs q := by
  induction objs with
  | nil => rfl
  | cons a rest ih =>
    by_cases hap : a.1 = p
    · have haq : a.1 ≠ q := by rw [hap]; exact fun he => h he.symm
      rw [show removeObjs (a :: rest) p = removeObjs rest p by simp [removeObjs, hap]]
      rw [show lookupObjs (a :: rest) q = lookupObjs rest q by simp [lookupObjs, haq]]
      exact ih
    · rw [show removeObjs (a :: rest) p = a :: removeObjs rest p by
        simp [removeObjs, hap]]
      by_cases haq : a.1 = q
      · rw [show lookupObjs (a :: removeObjs rest p) q = some a.2 by
          simp [lookupObjs, haq]]
        rw [show lookupObjs (a :: rest) q = some a.2 by simp [lookupObjs, haq]]
      · rw [show lookupObjs (a :: removeObjs rest p) q
            = lookupObjs (removeObjs rest p) q by simp [lookupObjs, haq]]
        rw [show lookupObjs (a :: rest) q = lookupObjs rest q by simp [lookupObjs, haq]]
        exact ih

/-- The deletion loop under failure-free unlinks: it deletes exactly the
file entries whose full path is listed, leaves every directory in place
(skipping it after the failed unlink), and succeeds. -/
theorem eraseDirLoop_ok_of_noErr (path : FPath) : ∀ (L : List FPath)
    (objs : List (FPath × FSObj)) (uerr : FPath → Bool),
    (∀ p, uerr p = false) → (objs.map Prod.fst).Nodup →
    eraseDirLoop path ⟨objs, uerr⟩ L
      = Except.ok ⟨objs.filter (fun e =>
          !(decide (e.1 ∈ L.map (fun b => path ++ PATH_SEPARATOR :: b))
            && decide (e.2 = FSObj.file))), uerr⟩ := by
  intro L
  induction L with
  | nil =>
    intro objs uerr hu hnd
    simp [eraseDirLoop]
  | cons b rest ih =>
    intro objs uerr hu hnd
    cases hl : lookupObjs objs (path ++ PATH_SEPARATOR :: b) with
    | none =>
      have hstep : FileDelete ⟨objs, uerr⟩ (path ++ PATH_SEPARATOR :: b)
          = Except.ok ⟨objs, uerr⟩ := by
        simp [FileDelete, unlinkFS, FS.lookup, hl]
      simp only [eraseDirLoop, hstep]
      rw [ih objs uerr hu hnd]
      have hfeq : objs.filter (fun e =>
            !(decide (e.1 ∈ rest.map (fun b2 => path ++ PATH_SEPARATOR :: b2))
              && decide (e.2 = FSObj.file)))
          = objs.filter (fun e =>
            !(decide (e.1 ∈ (b :: rest).map (fun b2 => path ++ PATH_SEPARATOR :: b2))
              && decide (e.2 = FSObj.file))) := by
        apply List.filter_congr
        intro e he
        have hne := lookupObjs_eq_none objs (path ++ PATH_SEPARATOR :: b) hl e he
        simp [List.mem_cons, hne]
      rw [hfeq]
    | some o =>
      cases o with
      | file =>
        have hstep : FileDelete ⟨objs, uerr⟩ (path ++ PATH_SEPARATOR :: b)
            = Except.ok ⟨removeObjs objs (path ++ PATH_SEPARATOR :: b), uerr⟩ := by
          simp [FileDelete, unlinkFS, FS.lookup, hl, hu (path ++ PATH_SEPARATOR :: b),
            FS.removePath]
        simp only [eraseDirLoop, hstep]
        rw [ih (removeObjs objs (path ++ PATH_SEPARATOR :: b)) uerr hu
          (nodup_keys_removeObjs objs (path ++ PATH_SEPARATOR :: b) hnd)]
        have hfeq : (removeObjs objs (path ++ PATH_SEPARATOR :: b)).filter (fun e =>
              !(decide (e.1 ∈ rest.map (fun b2 => path ++ PATH_SEPARATOR :: b2))
                && decide (e.2 = FSObj.file)))
            = objs.filter (fun e =>
              !(decide (e.1 ∈ (b :: rest).map (fun b2 => path ++ PATH_SEPARATOR :: b2))
                && decide (e.2 = FSObj.file))) := by
          rw [removeObjs_eq_filter, List.filter_filter]
          apply List.filter_congr
          intro e he
          by_cases hef : e.1 = path ++ PATH_SEPARATOR :: b
          · have hkind := lookupObjs_unique objs (path ++ PATH_SEPARATOR :: b) FSObj.file
              hnd hl e he hef
            simp [hef, hkind]
          · simp [List.mem_cons, hef]
        rw [hfeq]
      | dir =>
        have hstep : FileDelete ⟨objs, uerr⟩ (path ++ PATH_SEPARATOR :: b)
            = Except.error SGPError.deleteFailure := by
          simp [FileDelete, unlinkFS, FS.lookup, hl]
        have hattr : FileGetAttributes ⟨objs, uerr⟩ (path ++ PATH_SEPARATOR :: b)
            = some true := by
          simp [FileGetAttributes, FS.lookup, hl]
        simp only [eraseDirLoop, hstep, hattr]
        rw [if_pos trivial]
        rw [ih objs uerr hu hnd]
        have hfeq : objs.filter (fun e =>
              !(decide (e.1 ∈ rest.map (fun b2 => path ++ PATH_SEPARATOR :: b2))
                && decide (e.2 = FSObj.file)))
            = objs.filter (fun e =>
              !(decide (e.1 ∈ (b :: rest).map (fun b2 => path ++ PATH_SEPARATOR :: b2))
                && decide (e.2 = FSObj.file))) := by
          apply List.filter_congr
          intro e he
          by_cases hef : e.1 = path ++ PATH_SEPARATOR :: b
          · have hkind := lookupObjs_unique objs (path ++ PATH_SEPARATOR :: b) FSObj.dir
              hnd hl e he hef
            simp [hef, hkind]
          · simp [List.mem_cons, hef]
        rw [hfeq]

/-- The deletion loop aborts with DeleteFailure when some listed file
entry has a failing unlink. -/
theorem eraseDirLoop_err (path : FPath) : ∀ (L : List FPath)
    (objs : List (FPath × FSObj)) (uerr : FPath → Bool),
    (objs.map Prod.fst).Nodup →
    (∃ b, b ∈ L ∧ lookupObjs objs (path ++ PATH_SEPARATOR :: b) = some FSObj.file
      ∧ uerr (path ++ PATH_SEPARATOR :: b) = true) →
    eraseDirLoop path ⟨objs, uerr⟩ L = Except.error SGPError.deleteFailure := by
  intro L
  induction L with
  | nil =>
    intro objs uerr hnd h
    obtain ⟨b, hb, _⟩ := h
    exact absurd hb (List.not_mem_nil b)
  | cons b rest ih =>
    intro objs uerr hnd hex
    by_cases hbb : lookupObjs objs (path ++ PATH_SEPARATOR :: b) = some FSObj.file
        ∧ uerr (path ++ PATH_SEPARATOR :: b) = true
    · obtain ⟨hbf, hbe⟩ := hbb
      have hstep : FileDelete ⟨objs, uerr⟩ (path ++ PATH_SEPARATOR :: b)
          = Except.error SGPError.deleteFailure := by
        simp [FileDelete, unlinkFS, FS.lookup, hbf, hbe]
      have hattr : FileGetAttributes ⟨objs, uerr⟩ (path ++ PATH_SEPARATOR :: b)
          = some false := by
        simp [FileGetAttributes, FS.lookup, hbf]
      simp only [eraseDirLoop, hstep, hattr]
      simp
    · obtain ⟨b0, hb0mem, hb0f, hb0e⟩ := hex
      have hb0rest : b0 ∈ rest := by
        cases List.mem_cons.mp hb0mem with
        | inl h => exact absurd (h ▸ And.intro hb0f hb0e) hbb
        | inr h => exact h
      cases hl : lookupObjs objs (path ++ PATH_SEPARATOR :: b) with
      | none =>
        have hstep : FileDelete ⟨objs, uerr⟩ (path ++ PATH_SEPARATOR :: b)
            = Except.ok ⟨objs, uerr⟩ := by
          simp [FileDelete, unlinkFS, FS.lookup, hl]
        simp only [eraseDirLoop, hstep]
        exact ih objs uerr hnd ⟨b0, hb0rest, hb0f, hb0e⟩
      | some o =>
        cases o with
        | file =>
          have hub : uerr (path ++ PATH_SEPARATOR :: b) = false := by
            cases hub : uerr (path ++ PATH_SEPARATOR :: b) with
            | false => rfl
            | true => exact absurd ⟨hl, hub⟩ hbb
          have hstep : FileDelete ⟨objs, uerr⟩ (path ++ PATH_SEPARATOR :: b)
              = Except.ok ⟨removeObjs objs (path ++ PATH_SEPARATOR :: b), uerr⟩ := by
            simp [FileDelete, unlinkFS, FS.lookup, hl, hub, FS.removePath]
          have hbne : path ++ PATH_SEPARATOR :: b0 ≠ path ++ PATH_SEPARATOR :: b := by
            intro he
            have hb0b : b0 = b := by simpa using he
            subst hb0b
            rw [hub] at hb0e
            exact Bool.false_ne_true hb0e
          have hlook : lookupObjs (removeObjs objs (path ++ PATH_SEPARATOR :: b))
              (path ++ PATH_SEPARATOR :: b0) = some FSObj.file := by
            rw [lookupObjs_removeObjs_ne objs (path ++ PATH_SEPARATOR :: b)
              (path ++ PATH_SEPARATOR :: b0) hbne]
            exact hb0f
          simp only [eraseDirLoop, hstep]
          exact ih (removeObjs objs (path ++ PATH_SEPARATOR :: b)) uerr
            (nodup_keys_removeObjs objs (path ++ PATH_SEPARATOR :: b) hnd)
            ⟨b0, hb0rest, hlook, hb0e⟩
        | dir =>
          have hstep : FileDelete ⟨objs, uerr⟩ (path ++ PATH_SEPARATOR :: b)
              = Except.error SGPError.deleteFailure := by
            simp [FileDelete, unlinkFS, FS.lookup, hl]
          have hattr : FileGetAttributes ⟨objs, uerr⟩ (path ++ PATH_SEPARATOR :: b)
              = some true := by
            simp [FileGetAttributes, FS.lookup, hl]
          simp only [eraseDirLoop, hstep, hattr]
          rw [if_pos trivial]
          exact ih objs uerr hnd ⟨b0, hb0rest, hb0f, hb0e⟩

/-- Stripping a fragment that is literally there succeeds. -/
theorem stripPrefixPath_append (path x : FPath) :
    stripPrefixPath path (path ++ x) = some x := by
  induction path with
  | nil => rfl
  | cons a as ih => simp [stripPrefixPath, ih]

/-- Inversion for stripPrefixPath. -/
theorem stripPrefixPath_eq_some : ∀ (path p r : FPath),
    stripPrefixPath path p = some r → p = path ++ r := by
  intro path
  induction path with
  | nil =>
    intro p r h
    simp only [stripPrefixPath, Option.some.injEq] at h
    simp [h]
  | cons a as ih =>
    intro p r h
    cases p with
    | nil => simp [stripPrefixPath] at h
    | cons c cs =>
      by_cases hac : a = c
      · simp only [stripPrefixPath, if_pos hac] at h
        have := ih cs r h
        simp [this, hac]
      · simp [stripPrefixPath, hac] at h

/-- Inversion for globBase: a match of path ++ "/*" is the path extended
by a separator and one non-empty separator-free component that does not
begin with a dot. -/
theorem globBase_eq_some (path p b : FPath) (h : globBase path p = some b) :
    p = path ++ PATH_SEPARATOR :: b ∧ b ≠ [] ∧ PATH_SEPARATOR ∉ b
      ∧ b.head? ≠ some '.' := by
  unfold globBase at h
  cases hs : stripPrefixPath path p with
  | none => rw [hs] at h; simp at h
  | some r =>
    rw [hs] at h
    cases r with
    | nil => simp at h
    | cons c bs =>
      dsimp only at h
      by_cases hc : c = PATH_SEPARATOR ∧ bs ≠ [] ∧ PATH_SEPARATOR ∉ bs ∧ bs.head? ≠ some '.'
      · rw [if_pos hc] at h
        have hb : bs = b := by injection h
        subst hb
        obtain ⟨hc1, hc2⟩ := hc
        have hp := stripPrefixPath_eq_some path p (c :: bs) hs
        exact ⟨by rw [hp, hc1], hc2⟩
      · rw [if_neg hc] at h
        cases h

/-- A well-formed basename under the path is matched by the glob. -/
theorem globBase_append (path b : FPath) (hne : b ≠ [])
    (hsep : PATH_SEPARATOR ∉ b) (hdot : b.head? ≠ some '.') :
    globBase path (path ++ PATH_SEPARATOR :: b) = some b := by
  unfold globBase
  rw [stripPrefixPath_append path (PATH_SEPARATOR :: b)]
  dsimp only
  rw [if_pos ⟨rfl, hne, hsep, hdot⟩]

/-- For an entry of the filesystem, having its full path among the
glob-listed children is the same as being matched by the glob pattern. -/
theorem mem_map_globChildren (fs : FS) (path : FPath) (e : FPath × FSObj)
    (he : e ∈ fs.objs) :
    e.1 ∈ (globChildren fs path).map (fun b => path ++ PATH_SEPARATOR :: b)
      ↔ (globBase path e.1).isSome := by
  constructor
  · intro h
    obtain ⟨b, hb, heq⟩ := List.mem_map.mp h
    obtain ⟨e2, _, hbase⟩ := List.mem_filterMap.mp hb
    have hprops := globBase_eq_some path e2.1 b hbase
    rw [← heq, globBase_append path b hprops.2.1 hprops.2.2.1 hprops.2.2.2]
    rfl
  · intro h
    obtain ⟨b, hb⟩ := Option.isSome_iff_exists.mp h
    have hprops := globBase_eq_some path e.1 b hb
    apply List.mem_map.mpr
    refine ⟨b, ?_, hprops.1.symm⟩
    exact List.mem_filterMap.mpr ⟨e, he, hb⟩

/-- C8: EraseDirectory enumerates exactly the direct children matched by
path ++ "/*" and deletes each as a file.  When no unlink fails for an
extraneous reason, the result removes exactly the glob-matched file
entries and leaves every other object — in particular each subdirectory
and its entire contents — in place; and a failing unlink on a matched
file entry aborts the whole operation with DeleteFailure. -/
theorem EraseDirectory_shallow_erase :
    (∀ (fs : FS) (path : FPath), (fs.objs.map Prod.fst).Nodup →
      (∀ p, fs.unlinkErr p = false) →
      EraseDirectory fs path = Except.ok
        ⟨fs.objs.filter (fun e =>
          !((globBase path e.1).isSome && decide (e.2 = FSObj.file))),
         fs.unlinkErr⟩)
    ∧ (∀ (fs : FS) (path b : FPath), (fs.objs.map Prod.fst).Nodup →
        b ∈ globChildren fs path →
        fs.lookup (path ++ PATH_SEPARATOR :: b) = some FSObj.file →
        fs.unlinkErr (path ++ PATH_SEPARATOR :: b) = true →
        EraseDirectory fs path = Except.error SGPError.deleteFailure) := by
  constructor
  · intro fs path hnd hu
    obtain ⟨objs, uerr⟩ := fs
    unfold EraseDirectory
    rw [eraseDirLoop_ok_of_noErr path (globChildren ⟨objs, uerr⟩ path) objs uerr hu hnd]
    have hfeq : objs.filter (fun e =>
          !(decide (e.1 ∈ (globChildren ⟨objs, uerr⟩ path).map
              (fun b => path ++ PATH_SEPARATOR :: b))
            && decide (e.2 = FSObj.file)))
        = objs.filter (fun e =>
          !((globBase path e.1).isSome && decide (e.2 = FSObj.file))) := by
      apply List.filter_congr
      intro e he
      have hiff := mem_map_globChildren ⟨objs, uerr⟩ path e he
      simp only [hiff]
      simp
    rw [hfeq]
  · intro fs path b hnd hb hlook herr
    obtain ⟨objs, uerr⟩ := fs
    unfold EraseDirectory
    exact eraseDirLoop_err path (globChildren ⟨objs, uerr⟩ path) objs uerr hnd
      ⟨b, hb, hlook, herr⟩

/-- C8 witness: erasing "d" containing files "d/a", "d/b" and
subdirectory "d/s" (with "d/s/x" inside) removes exactly the two files
and leaves the subdirectory and its contents intact. -/
theorem EraseDirectory_shallow_erase_witness :
    EraseDirectory fsFix ['d'] = Except.ok
      ⟨[(['d'], FSObj.dir),
        (['d', '/', 's'], FSObj.dir),
        (['d', '/', 's', '/', 'x'], FSObj.file)],
       fsFix.unlinkErr⟩ := by
  have h := EraseDirectory_shallow_erase.1 fsFix ['d'] (by decide) (fun _ => rfl)
  rw [h]
  rfl
